import Mathlib

/-!
Verification of the silence-splitting example (`examples/split_silence.py`).

The program scans the diagnostic stream of an external `silencedetect`
invocation with three regular expressions, reconstructs the non-silent
`(start, end)` intervals (`get_chunk_times`), and then extracts one output
segment per interval, recording per-segment metadata (`split_audio`).

Lines of the diagnostic stream are modelled as `List Char`.  The three
regular expressions of the source,

  silence_start_re = ` silence_start: (?P<start>[0-9]+(\.?[0-9]*))$`
  silence_end_re   = ` silence_end: (?P<end>[0-9]+(\.?[0-9]*)) `
  total_duration_re = `size=[^ ]+ time=(?P<hours>[0-9]{2}):(?P<minutes>[0-9]{2}):(?P<seconds>[0-9\.]{5}) bitrate=`

are embedded as executable leftmost-search functions.  Times are modelled as
exact rationals; all values produced by the program are decimal fractions,
so rational arithmetic models Python's parsing and arithmetic of these
numerals.  Rationals are always built with `mkRat` so that every definition
evaluates inside the kernel; lemmas relate these to the usual field
operations.
-/

/-- Value of a list of decimal digit characters, most significant first
(Python `int`). -/
def digitsToNat (cs : List Char) : Nat :=
  cs.foldl (fun n c => 10 * n + (c.toNat - 48)) 0

/-- Value of a decimal numeral that may contain one `.` (Python `float` on a
valid literal such as `3.200000`, `08.00`, `5.` or `.25`): all digits read as
an integer, divided by ten to the number of digits after the dot. -/
def pyFloatVal (cs : List Char) : Rat :=
  mkRat (digitsToNat (cs.filter (fun c => c ≠ '.')))
    (10 ^ ((cs.dropWhile (fun c => c ≠ '.')).drop 1).length)

/-- Python `float(s)` for a string of digits and dots: defined exactly when
there is at most one dot and at least one digit, otherwise `ValueError`. -/
def pyFloat? (cs : List Char) : Option Rat :=
  if cs.count '.' ≤ 1 ∧ cs.any Char.isDigit then some (pyFloatVal cs) else none

/-- Does `cs` match `[0-9]+(\.?[0-9]*)` entirely (the anchored capture of
`silence_start_re`)? -/
def numFull (cs : List Char) : Bool :=
  let d1 := cs.takeWhile Char.isDigit
  !d1.isEmpty &&
    (match cs.dropWhile Char.isDigit with
     | [] => true
     | '.' :: ds => ds.all Char.isDigit
     | _ => false)

/-- Greedy match of `[0-9]+(\.?[0-9]*)` at the head of `r`: the longest
numeral prefix together with the rest of the string, or `none` when `r` does
not begin with a digit. -/
def numPrefixSplit (r : List Char) : Option (List Char × List Char) :=
  let d1 := r.takeWhile Char.isDigit
  if d1.isEmpty then none
  else
    match r.drop d1.length with
    | '.' :: r2 =>
      let d2 := r2.takeWhile Char.isDigit
      some (d1 ++ '.' :: d2, r2.drop d2.length)
    | r1 => some (d1, r1)

def litSilenceStart : List Char := (" silence_start: ").toList

def litSilenceEnd : List Char := (" silence_end: ").toList

def litSize : List Char := ("size=").toList

def litTime : List Char := (" time=").toList

def litBitrate : List Char := (" bitrate=").toList

/-- Search of `silence_start_re` over a line, returning the float value of the
captured group.  The pattern is `$`-anchored, so a position matches exactly
when the whole remainder of the line after ` silence_start: ` is a numeral;
the search tries every start position from the left. -/
def silence_start_search : List Char → Option Rat
  | [] => none
  | c :: rest =>
    if litSilenceStart.isPrefixOf (c :: rest) &&
        numFull ((c :: rest).drop litSilenceStart.length) then
      some (pyFloatVal ((c :: rest).drop litSilenceStart.length))
    else silence_start_search rest

/-- Search of `silence_end_re` over a line, returning the float value of the captured
group.  At each position the literal ` silence_end: ` must be followed by a
numeral and then a space; the greedy numeral prefix is the only candidate
that can be followed by a space. -/
def silence_end_search : List Char → Option Rat
  | [] => none
  | c :: rest =>
    (if litSilenceEnd.isPrefixOf (c :: rest) then
      match numPrefixSplit ((c :: rest).drop litSilenceEnd.length) with
      | some (n, ' ' :: _) => some (pyFloatVal n)
      | _ => silence_end_search rest
    else silence_end_search rest)

/-- One attempt of `total_duration_re` at the current position: `size=`,
then a nonempty run of non-space characters, then ` time=`, two digits, `:`,
two digits, `:`, five characters each a digit or dot, then ` bitrate=`.
Returns the three captured groups (hours, minutes, seconds text). -/
def duration_try (cs : List Char) : Option (List Char × List Char × List Char) :=
  if litSize.isPrefixOf cs then
    let r := cs.drop litSize.length
    let x := r.takeWhile (fun c => c ≠ ' ')
    if x.isEmpty then none
    else
      let r2 := r.drop x.length
      if litTime.isPrefixOf r2 then
        match r2.drop litTime.length with
        | h1 :: h2 :: ':' :: m1 :: m2 :: ':' :: rest =>
          if h1.isDigit && h2.isDigit && m1.isDigit && m2.isDigit &&
              (rest.take 5).length == 5 &&
              (rest.take 5).all (fun c => c.isDigit || c = '.') &&
              litBitrate.isPrefixOf (rest.drop 5) then
            some ([h1, h2], [m1, m2], rest.take 5)
          else none
        | _ => none
      else none
  else none

/-- Search of `total_duration_re` over a line: try `duration_try` at every position
from the left. -/
def total_duration_search : List Char → Option (List Char × List Char × List Char)
  | [] => none
  | c :: rest =>
    match duration_try (c :: rest) with
    | some r => some r
    | none => total_duration_search rest

/-- The value `hours * 3600 + minutes * 60 + seconds`, built with `mkRat` over the
components of `seconds` so that it evaluates in the kernel;
`total_seconds_eq` below proves it equal to that expression. -/
def total_seconds (hours minutes : Nat) (seconds : Rat) : Rat :=
  mkRat (((3600 * hours + 60 * minutes : Nat) : Int) * (seconds.den : Int) + seconds.num)
    seconds.den

/-- The classification the scan loop of `get_chunk_times` performs on one
line: the three regular expressions are tried in `if`/`elif` order, so
`silence_start_re` wins over `silence_end_re`, which wins over
`total_duration_re`; a line matching none of them carries no event.
`durBadC` marks a line whose matched seconds text is not a valid float
(Python would raise `ValueError` there). -/
inductive LineClass where
  | silenceStartC (t : Rat)
  | silenceEndC (t : Rat)
  | durC (t : Rat)
  | durBadC
  | noiseC
deriving DecidableEq

def classifyLine (l : List Char) : LineClass :=
  match silence_start_search l with
  | some t => .silenceStartC t
  | none =>
    match silence_end_search l with
    | some t => .silenceEndC t
    | none =>
      match total_duration_search l with
      | some (hh, mm, ss) =>
        match pyFloat? ss with
        | some s => .durC (total_seconds (digitsToNat hh) (digitsToNat mm) s)
        | none => .durBadC
      | none => .noiseC

/-- Python `x or y` for a float `x` (`0.0` is falsy). -/
def pyOr (a b : Rat) : Rat := if a = 0 then b else a

/-- Python `x or y` for `x` an optional float (`None` and `0.0` are falsy). -/
def pyOrOpt (x : Option Rat) (y : Rat) : Rat :=
  match x with
  | none => y
  | some v => if v = 0 then y else v

/-- Mutable state of the scan loop of `get_chunk_times`. -/
structure ScanSt where
  chunk_starts : List Rat
  chunk_ends : List Rat
  end_time : Option Rat
deriving DecidableEq

/-- One iteration of the scan loop (source lines 73-88).  A silence-start
match appends to `chunk_ends` and, if `chunk_starts` is still empty, appends
`start_time or 0.` to `chunk_starts`; otherwise a silence-end match appends
to `chunk_starts`; otherwise a total-duration match reassigns `end_time`.
`none` models the uncaught `ValueError` from `float` on a bad seconds
capture. -/
def stepLine (start_time : Rat) (st : ScanSt) (l : List Char) : Option ScanSt :=
  match classifyLine l with
  | .silenceStartC t =>
    some { st with
      chunk_ends := st.chunk_ends ++ [t],
      chunk_starts :=
        if st.chunk_starts.length = 0 then st.chunk_starts ++ [pyOr start_time 0]
        else st.chunk_starts }
  | .silenceEndC t => some { st with chunk_starts := st.chunk_starts ++ [t] }
  | .durC t => some { st with end_time := some t }
  | .durBadC => none
  | .noiseC => some st

def scanLines (start_time : Rat) : ScanSt → List (List Char) → Option ScanSt
  | st, [] => some st
  | st, l :: ls =>
    match stepLine start_time st l with
    | none => none
    | some st' => scanLines start_time st' ls

/-- Post-processing of the scan (source lines 90-96): if no silence was
found push `start_time` onto `chunk_starts`; if the recording finished with
non-silence push `end_time or 10000000.` onto `chunk_ends`. -/
def postProcess (start_time : Rat) (st : ScanSt) : List Rat × List Rat :=
  let starts :=
    if st.chunk_starts.length = 0 then st.chunk_starts ++ [start_time]
    else st.chunk_starts
  let ends :=
    if starts.length > st.chunk_ends.length then
      st.chunk_ends ++ [pyOrOpt st.end_time 10000000]
    else st.chunk_ends
  (starts, ends)

/-- The function `get_chunk_times` from the captured diagnostic lines onward (source
lines 68-98): scan every line in order, post-process, and zip
`chunk_starts` with `chunk_ends`.  `start_time`/`end_time` are the optional
CLI clipping bounds; `start_time` defaults to `0.`.  `none` models the
uncaught `ValueError`. -/
def get_chunk_times (lines : List (List Char)) (start_time end_time : Option Rat) :
    Option (List (Rat × Rat)) :=
  match scanLines (start_time.getD 0) ⟨[], [], end_time⟩ lines with
  | none => none
  | some st =>
    some ((postProcess (start_time.getD 0) st).1.zip (postProcess (start_time.getD 0) st).2)

/-!
### The scan as a machine over classified marker lines

Only silence-start and silence-end matches touch `chunk_starts` and
`chunk_ends`; duration and noise lines do not.  `mrun` replays exactly the
marker lines of a stream on the pair of lists, which lets the universal
claims about `get_chunk_times` be proved by induction on the marker
sequence.
-/

def isMarker : LineClass → Bool
  | .silenceStartC _ => true
  | .silenceEndC _ => true
  | _ => false

def isStartMark : LineClass → Bool
  | .silenceStartC _ => true
  | _ => false

/-- The silence-marker lines of a stream, in order, as classified events. -/
def markers (lines : List (List Char)) : List LineClass :=
  (lines.map classifyLine).filter isMarker

/-- Effect of one marker on `(chunk_starts, chunk_ends)`. -/
def mstep (start_time : Rat) : List Rat × List Rat → LineClass → List Rat × List Rat
  | (s, e), .silenceStartC t =>
    (if s.length = 0 then s ++ [pyOr start_time 0] else s, e ++ [t])
  | (s, e), .silenceEndC t => (s ++ [t], e)
  | (s, e), .durC _ => (s, e)
  | (s, e), .durBadC => (s, e)
  | (s, e), .noiseC => (s, e)

def mrun (start_time : Rat) : List Rat × List Rat → List LineClass → List Rat × List Rat
  | p, [] => p
  | p, c :: m => mrun start_time (mstep start_time p c) m

/-- The marker sequence of a well-formed silencedetect stream:
an alternation `silence_end t₁, silence_start u₁, silence_end t₂, …` of
complete pairs. -/
def pairsFlat : List (Rat × Rat) → List LineClass
  | [] => []
  | p :: ps => LineClass.silenceEndC p.1 :: LineClass.silenceStartC p.2 :: pairsFlat ps

/-!
### `split_audio` (source lines 111-163)

`get_chunk_times` feeds a loop that, for each interval `i`, formats
`start`/`end`/`duration` with `'{:.04f}'.format`, appends a metadata record,
and invokes the external engine to extract the segment; a non-zero exit of
that invocation only writes the captured diagnostic output to stderr.  After
the loop the metadata list is serialized if a metadata path was given.

The extraction invocations are external; their exit codes are a parameter
(`rc`) of the model.  The output-path pattern `out_pattern.format(i, i=i)`
is modelled as a function from the index to the resulting path.
-/

def digitChar (n : Nat) : Char := Char.ofNat (48 + n % 10)

def natDigits (n : Nat) : List Char :=
  if n < 10 then [digitChar n]
  else natDigits (n / 10) ++ [digitChar (n % 10)]
termination_by n
decreasing_by exact Nat.div_lt_self (by omega) (by omega)

/-- The number `m` rendered as exactly four decimal digits with leading zeros
(requires `m < 10000`). -/
def pad4 (m : Nat) : List Char :=
  List.replicate (4 - (natDigits m).length) '0' ++ natDigits m

/-- Round to the nearest integer, ties to even: the rounding of Python's
`'{:.04f}'` applied to the scaled value. -/
def rhe (q : Rat) : Int :=
  let f := q.floor
  let frac := q - (f : Rat)
  if frac < 1/2 then f
  else if 1/2 < frac then f + 1
  else if f % 2 = 0 then f else f + 1

/-- Python `'{:.04f}'.format(r)`: the value rounded half-to-even at four decimal
places, rendered with a sign, the integer digits, `.`, and exactly four
fractional digits. -/
def format4 (r : Rat) : List Char :=
  let n := rhe (r * 10000)
  let m := n.natAbs
  (if n < 0 then ['-'] else []) ++ natDigits (m / 10000) ++ '.' :: pad4 (m % 10000)

/-- The digits after the decimal point of a formatted number. -/
def frac_part (cs : List Char) : List Char :=
  ((cs.dropWhile (fun c => c ≠ '.')).drop 1)

/-- One metadata record (source lines 133-138): the output filename and the
formatted `start`, `end`, `duration` texts.  `end` is a Lean keyword, so the
field is named `end_`. -/
structure SegMeta where
  filename : List Char
  start : List Char
  end_ : List Char
  duration : List Char
deriving DecidableEq

/-- The metadata record built for interval `iv` at index `i`:
`duration` is `'{:.04f}'.format(end_time - start_time)`. -/
def segEntryOf (out_pattern : Nat → List Char) (i : Nat) (iv : Rat × Rat) : SegMeta :=
  { filename := out_pattern i
  , start := format4 iv.1
  , end_ := format4 iv.2
  , duration := format4 (iv.2 - iv.1) }

/-- Environment of the extraction loop: the output-path pattern, the exit
code each extraction invocation will return (the engine is external), the
verbose flag and the padding. -/
structure SplitEnv where
  out_pattern : Nat → List Char
  rc : Nat → Int
  verbose : Bool
  padding : Rat

/-- Observable state accumulated by the extraction loop: the metadata list,
the indices whose extraction was invoked, and the indices whose failing
diagnostic output was written to stderr. -/
structure SplitState where
  metadata : List SegMeta
  attempted : List Nat
  stderr_writes : List Nat
deriving DecidableEq

/-- One iteration of the loop of `split_audio` (source lines 125-158): the
metadata entry is appended and the extraction invoked unconditionally; a
non-zero exit only writes the captured output to stderr (when not verbose)
and the loop continues. -/
def split_step (env : SplitEnv) (st : SplitState) (p : Nat × (Rat × Rat)) : SplitState :=
  let st' := { st with
    metadata := st.metadata ++ [segEntryOf env.out_pattern p.1 p.2],
    attempted := st.attempted ++ [p.1] }
  if env.rc p.1 ≠ 0 ∧ env.verbose = false then
    { st' with stderr_writes := st'.stderr_writes ++ [p.1] }
  else st'

/-- The loop of `split_audio` over `enumerate(chunk_times)` followed by the
optional metadata serialization (source lines 124-163); the second component
is the serialized metadata document (`None` when no metadata path was
given). -/
def split_audio_core (env : SplitEnv) (chunk_times : List (Rat × Rat))
    (metadata_requested : Bool) : SplitState × Option (List SegMeta) :=
  let st := chunk_times.enum.foldl (split_step env) ⟨[], [], []⟩
  (st, if metadata_requested then some st.metadata else none)

/-- Result of the silence-detection invocation: its exit code and its
captured stderr lines. -/
structure AnalysisResult where
  returncode : Int
  output : List (List Char)

/-- Outcome of one whole run of the program: `exited code err` models
`sys.stderr.write(output); sys.exit(1)`, `error` models an uncaught
exception, `ok` a normal return. -/
inductive RunResult (α : Type) where
  | exited (code : Nat) (err : List (List Char)) : RunResult α
  | error : RunResult α
  | ok (v : α) : RunResult α
deriving DecidableEq

/-- The whole `split_audio` run (source lines 111-163 together with lines
54-66 of `get_chunk_times`): if the analysis invocation exited non-zero its
output is written to stderr and the process exits with code 1, before any
interval is computed or segment extracted; otherwise the intervals are
computed once and the extraction loop runs. -/
def run_split_silence (analysis : AnalysisResult) (start_time end_time : Option Rat)
    (env : SplitEnv) (metadata_requested : Bool) :
    RunResult (SplitState × Option (List SegMeta)) :=
  if analysis.returncode ≠ 0 then .exited 1 analysis.output
  else
    match get_chunk_times analysis.output start_time end_time with
    | none => .error
    | some chunk_times => .ok (split_audio_core env chunk_times metadata_requested)

/-!
### Concrete diagnostic lines used in the claims

`specLine1`-`specLine3` are the marker lines exactly as the specification
writes them; `engLine1`-`engLine3` are the same events as the engine
actually emits them (with the leading text that provides the space required
by the patterns, and the ` | silence_duration:` tail that provides the
trailing space `silence_end_re` requires).
-/

def specLine1 : List Char := ("silence_end: 0.500000").toList

def specLine2 : List Char := ("silence_start: 3.200000 ").toList

def specLine3 : List Char := ("silence_end: 5.000000").toList

def progressLine : List Char := ("size=... time=00:00:08.00 bitrate=...").toList

def engLine1 : List Char :=
  ("[silencedetect @ 0] silence_end: 0.500000 | silence_duration: 0.3").toList

def engLine2 : List Char := ("[silencedetect @ 0] silence_start: 3.200000").toList

def engLine3 : List Char :=
  ("[silencedetect @ 0] silence_end: 5.000000 | silence_duration: 1.8").toList

/-- A line on which both `silence_start_re` and `silence_end_re` match. -/
def dblLine : List Char := (" silence_end: 1.0  silence_start: 2.0").toList

/-- A progress line reporting a total duration of zero seconds. -/
def durZeroLine : List Char := ("size=0kB time=00:00:00.00 bitrate=N/A").toList

def endOneLine : List Char := (" silence_end: 1.0 ").toList

def endTwoLine : List Char := (" silence_end: 2.0 ").toList

def endThreeLine : List Char := (" silence_end: 3.0 ").toList

def startOneLine : List Char := (" silence_start: 1.0").toList

def startTwoHalfLine : List Char := (" silence_start: 2.5").toList

def demoEnv : SplitEnv := ⟨fun _ => ("out.wav").toList, fun _ => 0, false, 0⟩

/-- An environment in which every extraction invocation fails. -/
def demoFailEnv : SplitEnv := ⟨fun _ => ("out.wav").toList, fun _ => 1, false, 0⟩

theorem total_seconds_eq (hours minutes : Nat) (seconds : Rat) :
    total_seconds hours minutes seconds =
      (3600 * hours + 60 * minutes : Nat) + seconds := by
  rw [total_seconds, Rat.mkRat_eq_div]
  push_cast
  rw [add_div, mul_div_assoc, div_self (by exact_mod_cast seconds.den_nz), mul_one,
    Rat.num_div_den]

theorem markers_cons (l : List Char) (ls : List (List Char)) :
    markers (l :: ls) =
      if isMarker (classifyLine l) then classifyLine l :: markers ls else markers ls := by
  simp [markers, List.filter_cons]

/-- The scan loop agrees with the marker machine on
`(chunk_starts, chunk_ends)`. -/
theorem scanLines_eq_mrun (start_time : Rat) :
    ∀ (lines : List (List Char)) (st st' : ScanSt),
      scanLines start_time st lines = some st' →
      (st'.chunk_starts, st'.chunk_ends) =
        mrun start_time (st.chunk_starts, st.chunk_ends) (markers lines) := by
  intro lines
  induction lines with
  | nil => intro st st' h; cases h; rfl
  | cons l ls ih =>
    intro st st' h
    rw [markers_cons]
    simp only [scanLines, stepLine] at h
    cases hc : classifyLine l with
    | silenceStartC t =>
      rw [hc] at h
      show (st'.chunk_starts, st'.chunk_ends) =
        mrun start_time (st.chunk_starts, st.chunk_ends)
          (LineClass.silenceStartC t :: markers ls)
      rw [mrun, mstep]
      exact ih _ _ h
    | silenceEndC t =>
      rw [hc] at h
      show (st'.chunk_starts, st'.chunk_ends) =
        mrun start_time (st.chunk_starts, st.chunk_ends)
          (LineClass.silenceEndC t :: markers ls)
      rw [mrun, mstep]
      exact ih _ _ h
    | durC t =>
      rw [hc] at h
      show (st'.chunk_starts, st'.chunk_ends) =
        mrun start_time (st.chunk_starts, st.chunk_ends) (markers ls)
      exact ih { st with end_time := some t } st' h
    | durBadC =>
      rw [hc] at h
      exact Option.noConfusion h
    | noiseC =>
      rw [hc] at h
      show (st'.chunk_starts, st'.chunk_ends) =
        mrun start_time (st.chunk_starts, st.chunk_ends) (markers ls)
      exact ih _ _ h

/-- Once both lists are nonempty, every marker preserves their heads. -/
theorem mrun_head (start_time : Rat) :
    ∀ (m : List LineClass) (a b : Rat) (as bs : List Rat),
      ∃ as' bs',
        mrun start_time (a :: as, b :: bs) m = (a :: as', b :: bs') := by
  intro m
  induction m with
  | nil => intro a b as bs; exact ⟨as, bs, rfl⟩
  | cons c mm ih =>
    intro a b as bs
    cases c with
    | silenceStartC t =>
      rw [mrun, mstep]
      rw [if_neg (by simp : ¬((a :: as).length = 0))]
      simp only [List.cons_append]
      exact ih a b as (bs ++ [t])
    | silenceEndC t =>
      rw [mrun, mstep]
      simp only [List.cons_append]
      exact ih a b (as ++ [t]) bs
    | durC t => rw [mrun, mstep]; exact ih a b as bs
    | durBadC => rw [mrun, mstep]; exact ih a b as bs
    | noiseC => rw [mrun, mstep]; exact ih a b as bs

theorem mrun_pairsFlat (start_time : Rat) :
    ∀ (ps : List (Rat × Rat)) (a b : List Rat),
      mrun start_time (a, b) (pairsFlat ps) =
        (a ++ ps.map Prod.fst, b ++ ps.map Prod.snd) := by
  intro ps
  induction ps with
  | nil => intro a b; simp [pairsFlat, mrun]
  | cons p ps ih =>
    intro a b
    rw [pairsFlat, mrun, mstep, mrun, mstep]
    rw [if_neg (by simp : ¬((a ++ [p.1]).length = 0))]
    rw [ih]
    simp [List.append_assoc]

theorem countP_isStartMark_pairsFlat :
    ∀ ps : List (Rat × Rat), (pairsFlat ps).countP isStartMark = ps.length := by
  intro ps
  induction ps with
  | nil => rfl
  | cons p ps ih =>
    rw [pairsFlat, List.countP_cons, List.countP_cons, ih]
    simp [isStartMark]

theorem countP_isStartMark_markers (lines : List (List Char)) :
    (markers lines).countP isStartMark =
      lines.countP fun l => isStartMark (classifyLine l) := by
  rw [markers, List.countP_filter, List.countP_map]
  apply List.countP_congr
  intro c _
  simp only [Function.comp]
  cases hc : classifyLine c <;> simp [isStartMark, isMarker, hc]

theorem digitChar_spec (n : Nat) : (digitChar n).isDigit = true ∧ digitChar n ≠ '.' := by
  unfold digitChar
  have hk : n % 10 < 10 := Nat.mod_lt n (by omega)
  generalize hg : n % 10 = k at hk ⊢
  interval_cases k <;> exact (by decide)

theorem natDigits_spec (n : Nat) :
    ∀ c ∈ natDigits n, c.isDigit = true ∧ c ≠ '.' := by
  induction n using Nat.strong_induction_on with
  | _ n ih =>
    rw [natDigits]
    split
    · intro c hc
      rw [List.mem_singleton] at hc
      exact hc ▸ digitChar_spec n
    · intro c hc
      rcases List.mem_append.mp hc with h1 | h2
      · exact ih (n / 10) (Nat.div_lt_self (by omega) (by omega)) c h1
      · rw [List.mem_singleton] at h2
        exact h2 ▸ digitChar_spec (n % 10)

theorem natDigits_length_le : ∀ (k n : Nat), 1 ≤ k → n < 10 ^ k → (natDigits n).length ≤ k := by
  intro k
  induction k with
  | zero => omega
  | succ k ih =>
    intro n _ hn
    rw [natDigits]
    split
    · simp
    · rename_i hn10
      have hk1 : 1 ≤ k := by
        by_contra hk0
        have : k = 0 := by omega
        subst this
        simp at hn
        omega
      have : n / 10 < 10 ^ k := by
        rw [Nat.div_lt_iff_lt_mul (by omega)]
        calc n < 10 ^ (k + 1) := hn
        _ = 10 ^ k * 10 := by ring
      have := ih (n / 10) hk1 this
      simp only [List.length_append, List.length_singleton]
      omega

theorem pad4_length (m : Nat) (hm : m < 10000) : (pad4 m).length = 4 := by
  have h4 : (natDigits m).length ≤ 4 := natDigits_length_le 4 m (by omega) (by omega)
  simp only [pad4, List.length_append, List.length_replicate]
  omega

theorem pad4_digits (m : Nat) : ∀ c ∈ pad4 m, c.isDigit = true := by
  intro c hc
  rcases List.mem_append.mp hc with h1 | h2
  · rw [List.eq_of_mem_replicate h1]; decide
  · exact (natDigits_spec m c h2).1

theorem dropWhile_append_of_all {p : Char → Bool} :
    ∀ (l r : List Char), (∀ c ∈ l, p c = true) →
      (l ++ r).dropWhile p = r.dropWhile p := by
  intro l
  induction l with
  | nil => intro r _; rfl
  | cons c cs ih =>
    intro r h
    rw [List.cons_append, List.dropWhile_cons]
    rw [h c (List.mem_cons_self c cs)]
    simp only [if_true]
    exact ih r fun d hd => h d (List.mem_cons_of_mem c hd)

theorem frac_part_format4 (r : Rat) :
    frac_part (format4 r) = pad4 ((rhe (r * 10000)).natAbs % 10000) := by
  unfold format4 frac_part
  rw [List.append_assoc]
  rw [dropWhile_append_of_all _ _ (by intro c hc; split at hc <;> simp_all)]
  rw [dropWhile_append_of_all _ _
    (by intro c hc; simp only [decide_eq_true_eq]; exact (natDigits_spec _ c hc).2)]
  rw [List.dropWhile_cons]
  simp

/-- Formatting with `'{:.04f}'` always produces exactly four decimal places, all digits. -/
theorem format4_decimals (r : Rat) :
    (frac_part (format4 r)).length = 4 ∧ ∀ c ∈ frac_part (format4 r), c.isDigit = true := by
  rw [frac_part_format4]
  refine ⟨pad4_length _ (Nat.mod_lt _ (by omega)), pad4_digits _⟩

theorem split_foldl_spec (env : SplitEnv) :
    ∀ (l : List (Nat × (Rat × Rat))) (st : SplitState),
      (l.foldl (split_step env) st).metadata =
          st.metadata ++ l.map (fun p => segEntryOf env.out_pattern p.1 p.2) ∧
        (l.foldl (split_step env) st).attempted = st.attempted ++ l.map Prod.fst := by
  intro l
  induction l with
  | nil => intro st; simp
  | cons p ps ih =>
    intro st
    rw [List.foldl_cons]
    have := ih (split_step env st p)
    rcases this with ⟨h1, h2⟩
    rw [h1, h2]
    constructor
    · rw [List.map_cons]
      unfold split_step
      split <;> simp
    · rw [List.map_cons]
      unfold split_step
      split <;> simp

theorem pyOr_zero (a : Rat) : pyOr a 0 = a := by
  unfold pyOr
  split <;> simp_all

theorem classifyLine_not_marker {l : List Char}
    (h1 : silence_start_search l = none) (h2 : silence_end_search l = none) :
    isMarker (classifyLine l) = false := by
  unfold classifyLine
  rw [h1, h2]
  cases htd : total_duration_search l with
  | none => rfl
  | some v =>
    obtain ⟨hh, mm, ss⟩ := v
    cases hp : pyFloat? ss <;> simp [hp, isMarker]

/-- Claim C1 (counterexample): on the diagnostic stream consisting of the
four lines exactly as the specification writes them — `silence_end:
0.500000`, `silence_start: 3.200000 ` (trailing space), `silence_end:
5.000000`, and the progress line — the reconstruction returns `[(0, 8)]`,
not `[(0.5, 3.2), (5.0, 8.0)]`: the three marker lines lack the leading
space demanded by ` silence_start: `/` silence_end: `, the `silence_end`
lines lack the trailing space `silence_end_re` requires, and the trailing
space on the `silence_start` line breaks that pattern's `$` anchor. -/
theorem claim1_counterexample :
    get_chunk_times [specLine1, specLine2, specLine3, progressLine] none none
        = some [(0, 8)] ∧
      ¬ get_chunk_times [specLine1, specLine2, specLine3, progressLine] none none
        = some [(mkRat 1 2, mkRat 16 5), (5, 8)] := by
  constructor
  · decide
  · decide

/-- Claim C1 (amended): on the same three silence events and progress line
as the engine actually emits them — each marker preceded by text ending in a
space and each `silence_end` value followed by ` | silence_duration: …` —
the reconstruction returns exactly `[(0.5, 3.2), (5.0, 8.0)]`. -/
theorem claim1_thm :
    get_chunk_times [engLine1, engLine2, engLine3, progressLine] none none
      = some [(mkRat 1 2, mkRat 16 5), (5, 8)] := by
  decide

/-- Claim C5 (counterexample): in the stream ` silence_end: 1.0 ` followed
by a progress line reporting a total duration of `00:00:00.00`, a duration
*was* reported (0.0) and yet the sentinel `10000000.0` is used for the final
interval's end, because Python's `end_time or 10000000.` treats `0.0` as
falsy. -/
theorem claim5_counterexample :
    get_chunk_times [endOneLine, durZeroLine] none none = some [(1, 10000000)] ∧
      ¬ get_chunk_times [endOneLine, durZeroLine] none none = some [(1, 0)] := by
  constructor
  · decide
  · decide

/-- Claim C5 (amended): for every diagnostic stream that ends while
non-silent (after the scan `chunk_starts` is longer than `chunk_ends`), the
final interval's end is `end_time or 10000000.` — the last reported total
duration or the explicitly given end time when that value is non-`None`
*and nonzero*, and the very large sentinel `10000000.0` when no duration
was ever reported and no explicit end time was given *or* when that
effective end time equals `0.0` (Python truthiness). -/
theorem claim5_thm (lines : List (List Char)) (ost oet : Option Rat) (stt : ScanSt)
    (hs : scanLines (ost.getD 0) ⟨[], [], oet⟩ lines = some stt)
    (hlen : stt.chunk_starts.length > stt.chunk_ends.length) :
    ∃ res, get_chunk_times lines ost oet = some res ∧
      (res.map Prod.snd).getLast? = some (pyOrOpt stt.end_time 10000000) := by
  unfold get_chunk_times
  rw [hs]
  refine ⟨_, rfl, ?_⟩
  simp only [postProcess]
  rw [if_neg (by omega : ¬stt.chunk_starts.length = 0)]
  rw [if_pos hlen]
  rw [List.map_snd_zip]
  · exact List.getLast?_concat _
  · simp only [List.length_append, List.length_singleton]
    omega

/-- Claim C5 (witness): a stream with a single ` silence_end: 1.0 ` line
leaves `chunk_starts = [1]`, `chunk_ends = []`, no reported duration, and
the final interval ends at the sentinel. -/
theorem claim5_witness :
    ∃ res, get_chunk_times [endOneLine] none none = some res ∧
      (res.map Prod.snd).getLast? = some (pyOrOpt (ScanSt.mk [1] [] none).end_time 10000000) :=
  claim5_thm [endOneLine] none none ⟨[1], [], none⟩ (by decide) (by decide)

/-- Claim C6: if the silence-detection invocation exits with non-zero
status, the whole run fails: the captured diagnostic output is written to
stderr and the process exits with code 1, before any interval is produced
or any segment extracted (the `exited` outcome carries no intervals and no
extraction attempts); the model invokes the analysis exactly once, so the
failure is not retried. -/
theorem claim6_thm (analysis : AnalysisResult) (ost oet : Option Rat)
    (env : SplitEnv) (metadata_requested : Bool)
    (h : analysis.returncode ≠ 0) :
    run_split_silence analysis ost oet env metadata_requested =
      RunResult.exited 1 analysis.output := by
  unfold run_split_silence
  rw [if_pos h]

theorem claim6_witness :
    run_split_silence ⟨1, [("boom").toList]⟩ none none demoEnv false =
      RunResult.exited 1 [("boom").toList] :=
  claim6_thm ⟨1, [("boom").toList]⟩ none none demoEnv false (by decide)

/-- Claim C9: the number of intervals returned equals the minimum of the
lengths of the two accumulated sequences after post-processing — `zip`
truncates to the shorter list, so unpaired excess entries are silently
dropped rather than reported as an error. -/
theorem claim9_thm (lines : List (List Char)) (ost oet : Option Rat) (stt : ScanSt)
    (hs : scanLines (ost.getD 0) ⟨[], [], oet⟩ lines = some stt) :
    ∃ res, get_chunk_times lines ost oet = some res ∧
      res.length = min (postProcess (ost.getD 0) stt).1.length
        (postProcess (ost.getD 0) stt).2.length := by
  unfold get_chunk_times
  rw [hs]
  exact ⟨_, rfl, List.length_zip _ _⟩

/-- Claim C9 (witness): three consecutive `silence_end` lines leave
`chunk_starts = [1, 2, 3]` and `chunk_ends = []`; post-processing pushes a
single sentinel end, and the zip keeps `min 3 1 = 1` interval, silently
dropping the two excess starts. -/
theorem claim9_witness :
    ∃ res, get_chunk_times [endOneLine, endTwoLine, endThreeLine] none none = some res ∧
      res.length = min (postProcess 0 (ScanSt.mk [1, 2, 3] [] none)).1.length
        (postProcess 0 (ScanSt.mk [1, 2, 3] [] none)).2.length :=
  claim9_thm [endOneLine, endTwoLine, endThreeLine] none none ⟨[1, 2, 3], [], none⟩ (by decide)

/-- Claim C10: per line at most one event is extracted, by fixed
precedence: a `silence_start_re` match always classifies the line as a
silence-start event; `silence_end_re` is consulted only if
`silence_start_re` did not match; `total_duration_re` only if neither
matched.  On `dblLine`, which matches both silence patterns, only the
higher-precedence silence-start event (time 2) is extracted even though
`silence_end_re` matches with time 1. -/
theorem claim10_thm :
    (∀ (l : List Char) (t : Rat), silence_start_search l = some t →
        classifyLine l = LineClass.silenceStartC t) ∧
      (∀ (l : List Char) (t : Rat), silence_start_search l = none →
        silence_end_search l = some t → classifyLine l = LineClass.silenceEndC t) ∧
      (∀ (l hh mm ss : List Char), silence_start_search l = none →
        silence_end_search l = none → total_duration_search l = some (hh, mm, ss) →
        classifyLine l =
          (match pyFloat? ss with
           | some s => LineClass.durC (total_seconds (digitsToNat hh) (digitsToNat mm) s)
           | none => LineClass.durBadC)) ∧
      classifyLine dblLine = LineClass.silenceStartC 2 ∧
      silence_end_search dblLine = some 1 := by
  refine ⟨?_, ?_, ?_, by decide, by decide⟩
  · intro l t h
    unfold classifyLine
    rw [h]
  · intro l t h1 h2
    unfold classifyLine
    rw [h1, h2]
  · intro l hh mm ss h1 h2 h3
    unfold classifyLine
    rw [h1, h2, h3]

theorem claim10_witness : classifyLine dblLine = LineClass.silenceStartC 2 :=
  claim10_thm.1 dblLine 2 (by decide)

/-- Claim C4: a diagnostic stream in which no line matches the
silence-start or silence-end pattern yields exactly one interval, from the
effective start time (the given start time, defaulting to 0) to the
effective end time (`end_time or 10000000.`, where `end_time` is the last
reported total duration or the explicitly given end time). -/
theorem claim4_thm (lines : List (List Char)) (ost oet : Option Rat) (stt : ScanSt)
    (hs : scanLines (ost.getD 0) ⟨[], [], oet⟩ lines = some stt)
    (hnone : ∀ l ∈ lines, silence_start_search l = none ∧ silence_end_search l = none) :
    get_chunk_times lines ost oet =
      some [(ost.getD 0, pyOrOpt stt.end_time 10000000)] := by
  have hm : markers lines = [] := by
    unfold markers
    rw [List.filter_eq_nil_iff]
    intro c hc
    rw [List.mem_map] at hc
    obtain ⟨l, hl, rfl⟩ := hc
    rw [classifyLine_not_marker (hnone l hl).1 (hnone l hl).2]
    simp
  have hsm := scanLines_eq_mrun (ost.getD 0) lines _ _ hs
  rw [hm] at hsm
  rw [mrun] at hsm
  rw [Prod.mk.injEq] at hsm
  obtain ⟨h1, h2⟩ := hsm
  unfold get_chunk_times
  rw [hs]
  simp only [postProcess]
  rw [if_pos (by rw [h1]; rfl)]
  rw [if_pos (by rw [h1, h2]; simp)]
  rw [h1, h2]
  rfl

/-- Claim C4 (witness): the empty diagnostic stream with `start_time = 1.0`
and `end_time = 4.0` yields exactly `[(1.0, 4.0)]`. -/
theorem claim4_witness :
    get_chunk_times [] (some 1) (some 4) = some [((1 : Rat), (4 : Rat))] := by
  have h := claim4_thm [] (some 1) (some 4) ⟨[], [], some 4⟩ (by decide) (by simp)
  exact h.trans (by decide)

/-- Claim C3: for every diagnostic stream whose first silence marker is a
silence-start event, the first returned interval starts at the effective
analysis start time (the given start time, defaulting to 0), not at the
silence-start event's time. -/
theorem claim3_thm (lines : List (List Char)) (ost oet : Option Rat) (t : Rat)
    (m : List LineClass) (res : List (Rat × Rat))
    (hm : markers lines = LineClass.silenceStartC t :: m)
    (hres : get_chunk_times lines ost oet = some res) :
    ∃ q tl, res = (ost.getD 0, q) :: tl := by
  unfold get_chunk_times at hres
  cases hsc : scanLines (ost.getD 0) ⟨[], [], oet⟩ lines with
  | none => rw [hsc] at hres; exact Option.noConfusion hres
  | some stt =>
    rw [hsc] at hres
    injection hres with hres
    have hsm := scanLines_eq_mrun (ost.getD 0) lines _ _ hsc
    rw [hm] at hsm
    have hstep : mstep (ost.getD 0) ([], []) (LineClass.silenceStartC t) =
        ([pyOr (ost.getD 0) 0], [t]) := rfl
    rw [mrun, hstep] at hsm
    obtain ⟨as', bs', h2⟩ := mrun_head (ost.getD 0) m (pyOr (ost.getD 0) 0) t [] []
    rw [h2, Prod.mk.injEq] at hsm
    obtain ⟨h3, h4⟩ := hsm
    rw [pyOr_zero] at h3
    simp only [postProcess] at hres
    rw [h3, h4] at hres
    rw [if_neg (by simp)] at hres
    by_cases hc :
        (ost.getD 0 :: as').length > (t :: bs').length
    · rw [if_pos hc, List.cons_append, List.zip_cons_cons] at hres
      exact ⟨t, _, hres.symm⟩
    · rw [if_neg hc, List.zip_cons_cons] at hres
      exact ⟨t, _, hres.symm⟩

/-- Claim C3 (witness): a stream consisting of the single line
` silence_start: 1.0` (its first marker is a silence-start) yields `[(0, 1)]`,
whose first interval starts at the default effective start time 0. -/
theorem claim3_witness :
    ∃ q tl, ([((0 : Rat), (1 : Rat))] : List (Rat × Rat)) =
      ((none : Option Rat).getD 0, q) :: tl :=
  claim3_thm [startOneLine] none none 1 [] [(0, 1)] (by decide) (by decide)

/-- Claim C2 (counterexample): the claim fails as stated.  In the stream
` silence_start: 1.0` then ` silence_end: 2.0 ` the counts of start and end
markers are equal (one each), yet the reconstruction returns *two*
intervals, `[(0, 1), (2, 10000000)]`: the leading silence-start adds the
implicit interval start 0 and the trailing silence-end leaves an
unterminated interval closed by the sentinel.  (The empty stream is an even
simpler counterexample: zero markers, one interval.) -/
theorem claim2_counterexample :
    get_chunk_times [startOneLine, endTwoLine] none none
        = some [(0, 1), (2, 10000000)] ∧
      ([startOneLine, endTwoLine].countP fun l => isStartMark (classifyLine l)) = 1 := by
  constructor
  · decide
  · decide

/-- Claim C2 (amended): for every diagnostic stream whose silence-marker
lines form `n ≥ 1` alternating pairs — each pair a silence-end marker
followed by a silence-start marker — the reconstruction returns exactly
those `n` pairs as intervals (so the number of returned intervals equals
the number of silence-start marker lines), and when each pair is
chronological (its silence-end time below its silence-start time) every
interval satisfies `start < end`. -/
theorem claim2_thm (lines : List (List Char)) (ps : List (Rat × Rat))
    (ost oet : Option Rat) (res : List (Rat × Rat))
    (hm : markers lines = pairsFlat ps)
    (hne : ps ≠ [])
    (hres : get_chunk_times lines ost oet = some res) :
    res = ps ∧
      res.length = (lines.countP fun l => isStartMark (classifyLine l)) ∧
      ((∀ p ∈ ps, p.1 < p.2) → ∀ iv ∈ res, iv.1 < iv.2) := by
  unfold get_chunk_times at hres
  cases hsc : scanLines (ost.getD 0) ⟨[], [], oet⟩ lines with
  | none => rw [hsc] at hres; exact Option.noConfusion hres
  | some stt =>
    rw [hsc] at hres
    injection hres with hres
    have hsm := scanLines_eq_mrun (ost.getD 0) lines _ _ hsc
    rw [hm, mrun_pairsFlat] at hsm
    simp only [List.nil_append] at hsm
    rw [Prod.mk.injEq] at hsm
    obtain ⟨h1, h2⟩ := hsm
    have hlen : ps.length ≠ 0 := fun h => hne (List.length_eq_zero.mp h)
    simp only [postProcess] at hres
    rw [h1, h2] at hres
    rw [if_neg (by simpa using hlen)] at hres
    rw [if_neg (by simp)] at hres
    rw [List.zip_map'] at hres
    simp only [Prod.mk.eta, List.map_id, List.map_id'] at hres
    have hresps : res = ps := hres.symm
    refine ⟨hresps, ?_, ?_⟩
    · rw [← countP_isStartMark_markers, hm, countP_isStartMark_pairsFlat, hresps]
    · intro hchron iv hiv
      exact hchron iv (hresps ▸ hiv)

/-- Claim C2 (witness): the stream ` silence_end: 1.0 ` then
` silence_start: 2.5` is one alternating pair; the reconstruction returns
the single interval `(1, 2.5)`, its count equals the count of silence-start
marker lines, and `1 < 2.5`. -/
theorem claim2_witness :
    ([((1 : Rat), mkRat 5 2)] : List (Rat × Rat)).length =
        ([endOneLine, startTwoHalfLine].countP fun l => isStartMark (classifyLine l)) ∧
      ∀ iv ∈ ([((1 : Rat), mkRat 5 2)] : List (Rat × Rat)), iv.1 < iv.2 := by
  obtain ⟨h1, h2, h3⟩ := claim2_thm [endOneLine, startTwoHalfLine] [(1, mkRat 5 2)]
    none none [(1, mkRat 5 2)] (by decide) (by decide) (by decide)
  exact ⟨h2, h3 (by decide)⟩

/-- Claim C7: for every interval of the batch a metadata entry is recorded
whether or not that interval's extraction invocation succeeds (the metadata
list depends only on the output pattern and the intervals, not on the exit
codes `env.rc`), every interval's extraction is attempted, and the run still
finishes normally (`RunResult.ok`) whatever the per-segment exit codes are —
a non-zero exit of one extraction aborts nothing and leaves the run's exit
code unchanged. -/
theorem claim7_thm (analysis : AnalysisResult) (ost oet : Option Rat)
    (env : SplitEnv) (metadata_requested : Bool) (chunk_times : List (Rat × Rat))
    (h0 : analysis.returncode = 0)
    (hc : get_chunk_times analysis.output ost oet = some chunk_times) :
    ∃ fin, run_split_silence analysis ost oet env metadata_requested = RunResult.ok fin ∧
      fin.1.metadata =
        chunk_times.enum.map (fun p => segEntryOf env.out_pattern p.1 p.2) ∧
      fin.1.attempted = List.range chunk_times.length := by
  refine ⟨split_audio_core env chunk_times metadata_requested, ?_, ?_, ?_⟩
  · unfold run_split_silence
    rw [if_neg (by simp [h0]), hc]
  · have := (split_foldl_spec env chunk_times.enum ⟨[], [], []⟩).1
    simpa [split_audio_core] using this
  · have := (split_foldl_spec env chunk_times.enum ⟨[], [], []⟩).2
    simp only [split_audio_core]
    rw [this]
    simp [List.enum_map_fst]

/-- Claim C7 (witness): with an analysis exit code of 0 and an environment
in which every extraction invocation fails (`rc = 1`), the single interval
is still attempted and the run still ends in `RunResult.ok`. -/
theorem claim7_witness :
    ∃ fin, run_split_silence ⟨0, []⟩ none none demoFailEnv false = RunResult.ok fin ∧
      fin.1.attempted = List.range 1 := by
  obtain ⟨fin, hrun, _, hatt⟩ := claim7_thm ⟨0, []⟩ none none demoFailEnv false
    [(0, 10000000)] (by decide) (by decide)
  exact ⟨fin, hrun, hatt⟩

/-- Claim C8: when a metadata path is supplied, the serialized metadata
document is an array with exactly one `{filename, start, end, duration}`
record per interval, in interval order; each record's `start`, `end` and
`duration` are the 4-decimal fixed-point texts of the interval bounds and of
`end - start` (so the `duration` text equals `end − start` formatted to 4
decimals), and `'{:.04f}'` always yields exactly four fractional digits. -/
theorem claim8_thm (env : SplitEnv) (chunk_times : List (Rat × Rat))
    (i : Nat) (iv : Rat × Rat)
    (hi : chunk_times[i]? = some iv) :
    ∃ md, (split_audio_core env chunk_times true).2 = some md ∧
      md.length = chunk_times.length ∧
      md[i]? = some (segEntryOf env.out_pattern i iv) ∧
      (segEntryOf env.out_pattern i iv).start = format4 iv.1 ∧
      (segEntryOf env.out_pattern i iv).end_ = format4 iv.2 ∧
      (segEntryOf env.out_pattern i iv).duration = format4 (iv.2 - iv.1) ∧
      ∀ r : Rat, (frac_part (format4 r)).length = 4 ∧
        ∀ c ∈ frac_part (format4 r), c.isDigit = true := by
  have hmd : (split_audio_core env chunk_times true).2 =
      some (chunk_times.enum.map (fun p => segEntryOf env.out_pattern p.1 p.2)) := by
    simp only [split_audio_core, if_pos]
    rw [(split_foldl_spec env chunk_times.enum ⟨[], [], []⟩).1]
    simp
  refine ⟨_, hmd, by simp, ?_, rfl, rfl, rfl,
    fun r => ⟨(format4_decimals r).1, (format4_decimals r).2⟩⟩
  rw [List.getElem?_map, List.getElem?_enum, hi]
  rfl

/-- Claim C8 (witness): two intervals with `padding = 0` produce a metadata
document of exactly two records, the first of which carries the formatted
texts of `(0, 1)`. -/
theorem claim8_witness :
    ∃ md, (split_audio_core demoEnv [(0, 1), (2, 3)] true).2 = some md ∧
      md.length = 2 ∧
      md[0]? = some (segEntryOf demoEnv.out_pattern 0 (0, 1)) ∧
      (segEntryOf demoEnv.out_pattern 0 (0, 1)).start = format4 0 ∧
      (segEntryOf demoEnv.out_pattern 0 (0, 1)).end_ = format4 1 ∧
      (segEntryOf demoEnv.out_pattern 0 (0, 1)).duration = format4 ((1 : Rat) - 0) ∧
      ∀ r : Rat, (frac_part (format4 r)).length = 4 ∧
        ∀ c ∈ frac_part (format4 r), c.isDigit = true :=
  claim8_thm demoEnv [(0, 1), (2, 3)] 0 (0, 1) (by decide)
